import Mathlib

/-!
Verification of the DeepForest-pytorch prediction pipeline
(repository johnypark/DeepForest-pytorch).

The repository source available here is src/deepforest/main.py (the
orchestration module deepforest, a pytorch-lightning wrapper) and
src/tests/test_main.py.  The algorithmic core the spec describes
(predict.predict_tile with its sliding-window generator and hard/soft
NMS, the IoU routine, evaluate.evaluate) lives in modules of this
repository that are not part of the given sources; following the spec,
those pieces are modelled from the spec text (sections 3, 4.1, 4.3,
4.4, 4.5, 6, 7), pinned where possible by the behaviour the given test
file asserts.  Code of main.py itself (predict_image validation, the
cuda check, test_epoch_end) is embedded directly from the source.

Coordinates and scores are rationals; machine floats do not enter any
of the claims considered.
-/

/-- Axis-aligned box, fields as in the repository dataframes
(xmin, ymin, xmax, ymax), coordinates as rationals. -/
structure Box where
  xmin : ℚ
  ymin : ℚ
  xmax : ℚ
  ymax : ℚ
deriving DecidableEq

/-- Modelled from the spec: area of an axis-aligned rectangle
(width times height); a degenerate box of zero width or zero height
has area 0. -/
def Box.area (b : Box) : ℚ :=
  (b.xmax - b.xmin) * (b.ymax - b.ymin)

/-- A box is degenerate when it has zero width or zero height. -/
def Box.degenerate (b : Box) : Prop :=
  b.xmin = b.xmax ∨ b.ymin = b.ymax

instance (b : Box) : Decidable b.degenerate := by
  unfold Box.degenerate; infer_instance

/-- Modelled from the spec: intersection area of two axis-aligned
rectangles, the product of the clamped coordinate overlaps. -/
def interArea (a b : Box) : ℚ :=
  max 0 (min a.xmax b.xmax - max a.xmin b.xmin) *
    max 0 (min a.ymax b.ymax - max a.ymin b.ymin)

/-- Modelled from the spec: union area, inclusion-exclusion of the two
areas and the intersection area. -/
def unionArea (a b : Box) : ℚ :=
  a.area + b.area - interArea a b

/-- Modelled from the spec: IoU is intersection area divided by union
area, with the union == 0 case guarded to yield 0 so the computation
never divides by zero. -/
def iou (a b : Box) : ℚ :=
  if unionArea a b = 0 then 0 else interArea a b / unionArea a b

theorem interArea_comm (a b : Box) : interArea a b = interArea b a := by
  unfold interArea
  rw [min_comm a.xmax, max_comm a.xmin, min_comm a.ymax, max_comm a.ymin]

theorem unionArea_comm (a b : Box) : unionArea a b = unionArea b a := by
  unfold unionArea
  rw [interArea_comm, add_comm]

theorem iou_comm (a b : Box) : iou a b = iou b a := by
  unfold iou
  rw [interArea_comm, unionArea_comm]

theorem interArea_degenerate (a b : Box) (hb : b.degenerate) :
    interArea a b = 0 := by
  rcases hb with h | h
  · have hw : min a.xmax b.xmax - max a.xmin b.xmin ≤ 0 := by
      have h1 : min a.xmax b.xmax ≤ b.xmax := min_le_right _ _
      have h2 : b.xmin ≤ max a.xmin b.xmin := le_max_right _ _
      linarith
    unfold interArea
    rw [max_eq_left hw, zero_mul]
  · have hw : min a.ymax b.ymax - max a.ymin b.ymin ≤ 0 := by
      have h1 : min a.ymax b.ymax ≤ b.ymax := min_le_right _ _
      have h2 : b.ymin ≤ max a.ymin b.ymin := le_max_right _ _
      linarith
    unfold interArea
    rw [max_eq_left hw, mul_zero]

theorem area_degenerate (b : Box) (hb : b.degenerate) : b.area = 0 := by
  rcases hb with h | h
  · unfold Box.area; rw [h]; ring
  · unfold Box.area; rw [h]; ring

theorem iou_degenerate_right (a b : Box) (hb : b.degenerate) :
    iou a b = 0 := by
  unfold iou
  by_cases hu : unionArea a b = 0
  · rw [if_pos hu]
  · rw [if_neg hu, interArea_degenerate a b hb, zero_div]

theorem iou_degenerate_left (a b : Box) (ha : a.degenerate) :
    iou a b = 0 := by
  rw [iou_comm]
  exact iou_degenerate_right b a ha

/-- C3: for every pair of axis-aligned boxes, the IoU is intersection
area over union area when the union is nonzero; the union == 0 case is
guarded and yields 0, so no division by zero ever occurs; a degenerate
(zero-width or zero-height) box has area 0 and the IoU of any box
against a degenerate box is 0. -/
theorem iou_spec (a b : Box) :
    (unionArea a b ≠ 0 → iou a b = interArea a b / unionArea a b) ∧
    (unionArea a b = 0 → iou a b = 0) ∧
    (b.degenerate → b.area = 0 ∧ iou a b = 0 ∧ iou b a = 0) := by
  refine ⟨fun h => ?_, fun h => ?_, fun h => ?_⟩
  · unfold iou; rw [if_neg h]
  · unfold iou; rw [if_pos h]
  · exact ⟨area_degenerate b h, iou_degenerate_right a b h,
      iou_degenerate_left b a h⟩

/-- Witness for iou_spec: concrete boxes with nonzero union, a pair
with union exactly zero, and a degenerate box. -/
theorem iou_spec_witness :
    iou ⟨0, 0, 2, 2⟩ ⟨1, 1, 3, 3⟩ =
        interArea ⟨0, 0, 2, 2⟩ ⟨1, 1, 3, 3⟩ /
          unionArea ⟨0, 0, 2, 2⟩ ⟨1, 1, 3, 3⟩ ∧
    iou ⟨0, 0, 0, 5⟩ ⟨2, 2, 2, 2⟩ = 0 ∧
    Box.area ⟨4, 1, 4, 9⟩ = 0 ∧ iou ⟨0, 0, 2, 2⟩ ⟨4, 1, 4, 9⟩ = 0 ∧
      iou ⟨4, 1, 4, 9⟩ ⟨0, 0, 2, 2⟩ = 0 :=
  ⟨(iou_spec ⟨0, 0, 2, 2⟩ ⟨1, 1, 3, 3⟩).1
     (by norm_num [unionArea, interArea, Box.area]),
   (iou_spec ⟨0, 0, 0, 5⟩ ⟨2, 2, 2, 2⟩).2.1
     (by norm_num [unionArea, interArea, Box.area]),
   (iou_spec ⟨0, 0, 2, 2⟩ ⟨4, 1, 4, 9⟩).2.2 (Or.inl rfl)⟩

/-- Detection box as in the repository dataframes: a box together with
a confidence score and a class label. -/
structure Det where
  box : Box
  score : ℚ
  label : ℕ
deriving DecidableEq

/-- Modelled from the spec: select the highest-scoring detection of a
list, ties in score broken by original detection order (the earliest
wins), returning it together with the remaining detections in their
original order.  This is one step of the suppression loop of
predict.predict_tile, whose module is not among the given sources. -/
def selectMax : List Det → Option (Det × List Det)
  | [] => none
  | d :: rest =>
    match selectMax rest with
    | none => some (d, [])
    | some (m, rest') =>
      if d.score < m.score then some (m, d :: rest') else some (d, rest)

theorem selectMax_length : ∀ (l : List Det) (m : Det) (r : List Det),
    selectMax l = some (m, r) → r.length + 1 = l.length := by
  intro l
  induction l with
  | nil => intro m r h; simp [selectMax] at h
  | cons d rest ih =>
    intro m r h
    cases hr : selectMax rest with
    | none =>
      simp [selectMax, hr] at h
      obtain ⟨h1, h2⟩ := h
      subst h1; subst h2
      cases rest with
      | nil => rfl
      | cons e tail => simp [selectMax] at hr; cases hh : selectMax tail <;>
          simp [hh] at hr <;> split at hr <;> simp at hr
    | some p =>
      obtain ⟨m', rest'⟩ := p
      simp [selectMax, hr] at h
      have ihr := ih m' rest' hr
      by_cases hs : d.score < m'.score
      · rw [if_pos hs] at h
        simp only [Option.some.injEq, Prod.mk.injEq] at h
        obtain ⟨h1, h2⟩ := h
        subst h1; subst h2
        simpa using ihr
      · rw [if_neg hs] at h
        simp only [Option.some.injEq, Prod.mk.injEq] at h
        obtain ⟨h1, h2⟩ := h
        subst h1; subst h2
        simp

theorem selectMax_subset : ∀ (l : List Det) (m : Det) (r : List Det),
    selectMax l = some (m, r) → m ∈ l ∧ ∀ x ∈ r, x ∈ l := by
  intro l
  induction l with
  | nil => intro m r h; simp [selectMax] at h
  | cons d rest ih =>
    intro m r h
    cases hr : selectMax rest with
    | none =>
      simp [selectMax, hr] at h
      obtain ⟨h1, h2⟩ := h
      subst h1; subst h2
      exact ⟨List.mem_cons_self _ _, by simp⟩
    | some p =>
      obtain ⟨m', rest'⟩ := p
      simp [selectMax, hr] at h
      obtain ⟨ihm, ihsub⟩ := ih m' rest' hr
      by_cases hs : d.score < m'.score
      · rw [if_pos hs] at h
        simp only [Option.some.injEq, Prod.mk.injEq] at h
        obtain ⟨h1, h2⟩ := h
        subst h1; subst h2
        refine ⟨List.mem_cons_of_mem _ ihm, ?_⟩
        intro x hx
        rcases List.mem_cons.mp hx with hx | hx
        · exact hx ▸ List.mem_cons_self _ _
        · exact List.mem_cons_of_mem _ (ihsub x hx)
      · rw [if_neg hs] at h
        simp only [Option.some.injEq, Prod.mk.injEq] at h
        obtain ⟨h1, h2⟩ := h
        subst h1; subst h2
        exact ⟨List.mem_cons_self _ _, fun x hx => List.mem_cons_of_mem _ hx⟩

theorem selectMax_is_max : ∀ (l : List Det) (m : Det) (r : List Det),
    selectMax l = some (m, r) → ∀ x ∈ l, x.score ≤ m.score := by
  intro l
  induction l with
  | nil => intro m r h; simp [selectMax] at h
  | cons d rest ih =>
    intro m r h
    cases hr : selectMax rest with
    | none =>
      simp [selectMax, hr] at h
      obtain ⟨h1, h2⟩ := h
      subst h1; subst h2
      intro x hx
      rcases List.mem_cons.mp hx with hx | hx
      · exact hx ▸ le_refl _
      · cases rest with
        | nil => simp at hx
        | cons e tail => simp [selectMax] at hr; cases hh : selectMax tail <;>
            simp [hh] at hr <;> split at hr <;> simp at hr
    | some p =>
      obtain ⟨m', rest'⟩ := p
      simp [selectMax, hr] at h
      have ihmax := ih m' rest' hr
      by_cases hs : d.score < m'.score
      · rw [if_pos hs] at h
        simp only [Option.some.injEq, Prod.mk.injEq] at h
        obtain ⟨h1, h2⟩ := h
        subst h1; subst h2
        intro x hx
        rcases List.mem_cons.mp hx with hx | hx
        · exact hx ▸ le_of_lt hs
        · exact ihmax x hx
      · rw [if_neg hs] at h
        simp only [Option.some.injEq, Prod.mk.injEq] at h
        obtain ⟨h1, h2⟩ := h
        subst h1; subst h2
        intro x hx
        rcases List.mem_cons.mp hx with hx | hx
        · exact hx ▸ le_refl _
        · exact le_trans (ihmax x hx) (not_lt.mp hs)

/-- Modelled from the spec, section 4.4: hard NMS.  Repeatedly select
the highest-scoring remaining detection (ties broken by original
detection order), emit it, and discard every remaining detection whose
IoU with the selected one exceeds iou_threshold; terminate when no
detections remain. -/
def nms (thr : ℚ) (l : List Det) : List Det :=
  match h : selectMax l with
  | none => []
  | some (m, r) =>
    m :: nms thr (r.filter (fun d => decide (iou m.box d.box ≤ thr)))
termination_by l.length
decreasing_by
  have hlen := selectMax_length l m r h
  have hfil := List.length_filter_le
    (fun d => decide (iou m.box d.box ≤ thr)) r
  omega

theorem nms_nil (thr : ℚ) : nms thr [] = [] := by
  rw [nms]
  rfl

theorem nms_cons (thr : ℚ) (l : List Det) (m : Det) (r : List Det)
    (h : selectMax l = some (m, r)) :
    nms thr l =
      m :: nms thr (r.filter (fun d => decide (iou m.box d.box ≤ thr))) := by
  rw [nms]
  split
  · rename_i heq
    rw [heq] at h
    cases h
  · rename_i m' r' heq
    rw [heq] at h
    cases h
    rfl

theorem nms_none (thr : ℚ) (l : List Det) (h : selectMax l = none) :
    nms thr l = [] := by
  rw [nms]
  split
  · rfl
  · rename_i m r heq
    rw [heq] at h
    cases h

theorem nms_subset (thr : ℚ) : ∀ (n : ℕ) (l : List Det), l.length ≤ n →
    ∀ x ∈ nms thr l, x ∈ l := by
  intro n
  induction n with
  | zero =>
    intro l hl x hx
    have hnil : l = [] := List.length_eq_zero.mp (Nat.le_zero.mp hl)
    subst hnil
    rw [nms_nil] at hx
    simp at hx
  | succ n ih =>
    intro l hl x hx
    cases hsel : selectMax l with
    | none =>
      rw [nms_none thr l hsel] at hx
      simp at hx
    | some p =>
      obtain ⟨m, r⟩ := p
      rw [nms_cons thr l m r hsel] at hx
      rcases List.mem_cons.mp hx with hx | hx
      · exact hx ▸ (selectMax_subset l m r hsel).1
      · have hlen := selectMax_length l m r hsel
        have hfil := List.length_filter_le
          (fun d => decide (iou m.box d.box ≤ thr)) r
        have hx' := ih _ (by omega) x hx
        exact (selectMax_subset l m r hsel).2 x (List.mem_filter.mp hx').1

theorem nms_pairwise_iou (thr : ℚ) : ∀ (n : ℕ) (l : List Det),
    l.length ≤ n →
    (nms thr l).Pairwise (fun a b => iou a.box b.box ≤ thr) := by
  intro n
  induction n with
  | zero =>
    intro l hl
    have hnil : l = [] := List.length_eq_zero.mp (Nat.le_zero.mp hl)
    subst hnil
    rw [nms_nil]
    exact List.Pairwise.nil
  | succ n ih =>
    intro l hl
    cases hsel : selectMax l with
    | none =>
      rw [nms_none thr l hsel]
      exact List.Pairwise.nil
    | some p =>
      obtain ⟨m, r⟩ := p
      rw [nms_cons thr l m r hsel]
      have hlen := selectMax_length l m r hsel
      have hfil := List.length_filter_le
        (fun d => decide (iou m.box d.box ≤ thr)) r
      refine List.Pairwise.cons ?_ (ih _ (by omega))
      intro b hb
      have hb' := nms_subset thr _ _ le_rfl b hb
      exact of_decide_eq_true (List.mem_filter.mp hb').2

theorem nms_sorted_scores (thr : ℚ) : ∀ (n : ℕ) (l : List Det),
    l.length ≤ n →
    (nms thr l).Pairwise (fun a b => b.score ≤ a.score) := by
  intro n
  induction n with
  | zero =>
    intro l hl
    have hnil : l = [] := List.length_eq_zero.mp (Nat.le_zero.mp hl)
    subst hnil
    rw [nms_nil]
    exact List.Pairwise.nil
  | succ n ih =>
    intro l hl
    cases hsel : selectMax l with
    | none =>
      rw [nms_none thr l hsel]
      exact List.Pairwise.nil
    | some p =>
      obtain ⟨m, r⟩ := p
      rw [nms_cons thr l m r hsel]
      have hlen := selectMax_length l m r hsel
      have hfil := List.length_filter_le
        (fun d => decide (iou m.box d.box ≤ thr)) r
      refine List.Pairwise.cons ?_ (ih _ (by omega))
      intro b hb
      have hb' := nms_subset thr _ _ le_rfl b hb
      have hbr : b ∈ r := (List.mem_filter.mp hb').1
      exact selectMax_is_max l m r hsel b ((selectMax_subset l m r hsel).2 b hbr)

/-- C1: hard NMS emits the retained detections in descending score
order (the highest-scoring remaining detection first, ties broken by
original detection order via selectMax), and the resulting output
never contains two retained detections whose pairwise IoU exceeds
iou_threshold, in either orientation. -/
theorem nms_invariant (thr : ℚ) (l : List Det) :
    (nms thr l).Pairwise
      (fun a b => iou a.box b.box ≤ thr ∧ iou b.box a.box ≤ thr) ∧
    (nms thr l).Pairwise (fun a b => b.score ≤ a.score) := by
  refine ⟨?_, nms_sorted_scores thr l.length l le_rfl⟩
  refine (nms_pairwise_iou thr l.length l le_rfl).imp ?_
  intro a b hab
  refine ⟨hab, ?_⟩
  rw [iou_comm]
  exact hab

/-- Modelled from the spec, section 4.1: the window offsets along one
axis.  Windows start on a regular grid of the given stride; a final
boundary window is shifted inward to end exactly at the raster edge
whenever the grid windows do not already reach it, so that no window
reads out of bounds. -/
def offsets1D (W patch stride : ℕ) : List ℕ :=
  (List.range ((W - patch) / stride + 1)).map (· * stride) ++
    (if (W - patch) / stride * stride + patch < W then [W - patch] else [])

theorem offsets1D_inbounds (W patch stride : ℕ) (hpW : patch ≤ W) :
    ∀ o ∈ offsets1D W patch stride, o + patch ≤ W := by
  intro o ho
  rcases List.mem_append.mp ho with ho | ho
  · obtain ⟨i, hi, rfl⟩ := List.mem_map.mp ho
    have hik : i ≤ (W - patch) / stride := Nat.lt_succ_iff.mp (List.mem_range.mp hi)
    have h1 : i * stride ≤ (W - patch) / stride * stride :=
      Nat.mul_le_mul_right _ hik
    have h2 : (W - patch) / stride * stride ≤ W - patch :=
      Nat.div_mul_le_self _ _
    omega
  · split at ho
    · have : o = W - patch := List.mem_singleton.mp ho
      omega
    · simp at ho

theorem offsets1D_cover (W patch stride : ℕ) (hs : 0 < stride)
    (hsp : stride ≤ patch) (hpW : patch ≤ W) :
    ∀ x < W, ∃ o ∈ offsets1D W patch stride, o ≤ x ∧ x < o + patch := by
  intro x hx
  by_cases hik : x / stride ≤ (W - patch) / stride
  · refine ⟨x / stride * stride, ?_, ?_, ?_⟩
    · exact List.mem_append.mpr (Or.inl (List.mem_map.mpr
        ⟨x / stride, List.mem_range.mpr (Nat.lt_succ_iff.mpr hik), rfl⟩))
    · exact Nat.div_mul_le_self _ _
    · have h1 : x < (x / stride + 1) * stride :=
        (Nat.div_lt_iff_lt_mul hs).mp (Nat.lt_succ_self _)
      have h2 : (x / stride + 1) * stride = x / stride * stride + stride :=
        Nat.succ_mul _ _
      omega
  · push_neg at hik
    have hstep : ((W - patch) / stride + 1) * stride ≤ x :=
      (Nat.le_div_iff_mul_le hs).mp (Nat.succ_le_of_lt hik)
    by_cases hlast : (W - patch) / stride * stride + patch < W
    · refine ⟨W - patch, ?_, ?_, ?_⟩
      · refine List.mem_append.mpr (Or.inr ?_)
        rw [if_pos hlast]
        exact List.mem_singleton.mpr rfl
      · have h1 : W - patch < ((W - patch) / stride + 1) * stride :=
          (Nat.div_lt_iff_lt_mul hs).mp (Nat.lt_succ_self _)
        omega
      · omega
    · refine ⟨(W - patch) / stride * stride, ?_, ?_, ?_⟩
      · exact List.mem_append.mpr (Or.inl (List.mem_map.mpr
          ⟨(W - patch) / stride, List.mem_range.mpr (Nat.lt_succ_self _), rfl⟩))
      · have h2 : ((W - patch) / stride + 1) * stride =
            (W - patch) / stride * stride + stride := Nat.succ_mul _ _
        omega
      · omega

/-- Modelled from the spec, sections 3 and 4.1: the stride between
consecutive window offsets, patch_size minus the overlap expressed in
pixels (the floor of patch_size times the overlap fraction); with
overlap 0.1 and patch_size 400 the offsets step by 360 pixels. -/
def strideOf (patch : ℕ) (overlap : ℚ) : ℕ :=
  patch - (⌊(patch : ℚ) * overlap⌋).toNat

theorem strideOf_pos (patch : ℕ) (overlap : ℚ) (hp : 0 < patch)
    (h1 : overlap < 1) : 0 < strideOf patch overlap := by
  have hf : ⌊(patch : ℚ) * overlap⌋ < (patch : ℤ) := by
    apply Int.floor_lt.mpr
    push_cast
    calc (patch : ℚ) * overlap < (patch : ℚ) * 1 := by
          apply mul_lt_mul_of_pos_left h1
          exact_mod_cast hp
      _ = (patch : ℚ) := mul_one _
  unfold strideOf
  omega

theorem strideOf_le (patch : ℕ) (overlap : ℚ) :
    strideOf patch overlap ≤ patch := Nat.sub_le _ _

/-- Modelled from the spec, section 4.1: the grid of patch windows for
a raster of width W and height H, each window given by its
(x_offset, y_offset) and extending patch pixels in both axes. -/
def windows2D (W H patch : ℕ) (overlap : ℚ) : List (ℕ × ℕ) :=
  (offsets1D W patch (strideOf patch overlap)).flatMap
    (fun x => (offsets1D H patch (strideOf patch overlap)).map
      (fun y => (x, y)))

/-- C2: for every raster of dimensions W times H and every patch
configuration with a positive patch_size at most min W H and an
overlap fraction in the interval from 0 inclusive to 1 exclusive, the
generated windows cover every pixel of the raster at least once, and
each generated window lies entirely within the raster bounds. -/
theorem windows2D_cover_inbounds (W H patch : ℕ) (overlap : ℚ)
    (hp : 0 < patch) (hpWH : patch ≤ min W H)
    (h0 : 0 ≤ overlap) (h1 : overlap < 1) :
    (∀ px py, px < W → py < H →
      ∃ w ∈ windows2D W H patch overlap,
        w.1 ≤ px ∧ px < w.1 + patch ∧ w.2 ≤ py ∧ py < w.2 + patch) ∧
    (∀ w ∈ windows2D W H patch overlap,
      w.1 + patch ≤ W ∧ w.2 + patch ≤ H) := by
  have hpW : patch ≤ W := le_trans hpWH (min_le_left _ _)
  have hpH : patch ≤ H := le_trans hpWH (min_le_right _ _)
  have hs : 0 < strideOf patch overlap := strideOf_pos patch overlap hp h1
  have hsp : strideOf patch overlap ≤ patch := strideOf_le patch overlap
  constructor
  · intro px py hpx hpy
    obtain ⟨ox, hox, hox1, hox2⟩ :=
      offsets1D_cover W patch (strideOf patch overlap) hs hsp hpW px hpx
    obtain ⟨oy, hoy, hoy1, hoy2⟩ :=
      offsets1D_cover H patch (strideOf patch overlap) hs hsp hpH py hpy
    refine ⟨(ox, oy), ?_, hox1, hox2, hoy1, hoy2⟩
    exact List.mem_flatMap.mpr ⟨ox, hox, List.mem_map.mpr ⟨oy, hoy, rfl⟩⟩
  · intro w hw
    obtain ⟨ox, hox, hw'⟩ := List.mem_flatMap.mp hw
    obtain ⟨oy, hoy, rfl⟩ := List.mem_map.mp hw'
    exact ⟨offsets1D_inbounds W patch _ hpW ox hox,
      offsets1D_inbounds H patch _ hpH oy hoy⟩

/-- Witness for windows2D_cover_inbounds: the spec scenario raster of
1000 by 1000 pixels with patch_size 400 and overlap 0.1. -/
theorem windows2D_cover_inbounds_witness :
    0 < 400 ∧ 400 ≤ min 1000 1000 ∧ (0 : ℚ) ≤ 1 / 10 ∧ (1 : ℚ) / 10 < 1 ∧
    ((∀ px py, px < 1000 → py < 1000 →
      ∃ w ∈ windows2D 1000 1000 400 (1 / 10),
        w.1 ≤ px ∧ px < w.1 + 400 ∧ w.2 ≤ py ∧ py < w.2 + 400) ∧
    (∀ w ∈ windows2D 1000 1000 400 (1 / 10),
      w.1 + 400 ≤ 1000 ∧ w.2 + 400 ≤ 1000)) :=
  ⟨by decide, by decide, by norm_num, by norm_num,
    windows2D_cover_inbounds 1000 1000 400 (1 / 10)
      (by decide) (by decide) (by norm_num) (by norm_num)⟩

/-- Modelled from the spec, section 4.3: the coordinate remapper
translates a patch-local detection to raster-global coordinates by
adding the patch offsets to all four box coordinates. -/
def remap (w : ℕ × ℕ) (d : Det) : Det :=
  { d with box := ⟨d.box.xmin + w.1, d.box.ymin + w.2,
                   d.box.xmax + w.1, d.box.ymax + w.2⟩ }

/-- Modelled from the spec, sections 4.1 to 4.4: predict.predict_tile,
whose module is not among the given sources.  The patch configuration
is validated first — a patch_size exceeding the raster dimensions or
an overlap of at least 1 is a configuration error raised before the
per-patch inference capability is ever invoked — then inference runs
on every window, the detections are remapped to global coordinates,
and hard NMS merges them. -/
def predict_tile (W H patch : ℕ) (overlap iou_threshold : ℚ)
    (inference : ℕ × ℕ → List Det) : Except String (List Det) :=
  if patch > W ∨ patch > H then
    Except.error "patch_size exceeds raster dimensions"
  else if 1 ≤ overlap then
    Except.error "patch_overlap must be below 1"
  else
    Except.ok (nms iou_threshold
      (((windows2D W H patch overlap).map
        (fun w => (inference w).map (remap w))).flatten))

/-- C6: for every tiled-prediction call where patch_size exceeds the
raster dimensions or patch_overlap is at least 1, the call fails with
a configuration error, and it does so before any inference on any
patch runs: the result is the same whatever the inference capability
returns. -/
theorem predict_tile_config_error (W H patch : ℕ) (overlap thr : ℚ)
    (hbad : patch > W ∨ patch > H ∨ 1 ≤ overlap) :
    ∀ f g : ℕ × ℕ → List Det,
      (∃ e, predict_tile W H patch overlap thr f = Except.error e) ∧
      predict_tile W H patch overlap thr f =
        predict_tile W H patch overlap thr g := by
  intro f g
  unfold predict_tile
  by_cases hc : patch > W ∨ patch > H
  · simp only [if_pos hc]
    exact ⟨⟨_, rfl⟩, trivial⟩
  · have hov : 1 ≤ overlap := by
      rcases hbad with h | h | h
      · exact absurd (Or.inl h) hc
      · exact absurd (Or.inr h) hc
      · exact h
    simp only [if_neg hc, if_pos hov]
    exact ⟨⟨_, rfl⟩, trivial⟩

/-- Witness for predict_tile_config_error: a 400 by 400 raster with
patch_size 500 errors out independently of the inference capability. -/
theorem predict_tile_config_error_witness :
    (400 < 500 ∨ 400 < 500 ∨ (1 : ℚ) ≤ 1 / 20) ∧
    ((∃ e, predict_tile 400 400 500 (1 / 20) 0 (fun _ => []) =
        Except.error e) ∧
      predict_tile 400 400 500 (1 / 20) 0 (fun _ => []) =
        predict_tile 400 400 500 (1 / 20) 0
          (fun _ => [⟨⟨0, 0, 1, 1⟩, 1, 0⟩])) :=
  ⟨Or.inl (by decide),
    predict_tile_config_error 400 400 500 (1 / 20) 0 (Or.inl (by decide))
      (fun _ => []) (fun _ => [⟨⟨0, 0, 1, 1⟩, 1, 0⟩])⟩

/-- Modelled from the spec, sections 4.4 and 7, and pinned by
test_predict_image_empty in src/tests/test_main.py: predict.predict_image
(whose module is not among the given sources) keeps the detections
whose score reaches score_threshold and returns None — not a dataframe
and not an error — when none survive; the test asserts that predicting
on a random image yields None. -/
def predict_image_result (dets : List Det) (score_threshold : ℚ) :
    Option (List Det) :=
  let surviving := dets.filter (fun d => decide (score_threshold ≤ d.score))
  if surviving.isEmpty then none else some surviving

/-- C4 counterexample: on an empty detection set predict_image yields
None, which is not the empty result table the claim describes. -/
theorem predict_image_empty_not_table :
    predict_image_result [] 0 = none ∧
      predict_image_result [] 0 ≠ some [] := by
  refine ⟨rfl, ?_⟩
  intro h
  simp [predict_image_result] at h

/-- C4 amended: on an empty detection set the suppression engine
returns an empty set and predict_image returns None; neither raises an
error. -/
theorem empty_detections_ok :
    (∀ thr : ℚ, nms thr [] = []) ∧
    (∀ sthr : ℚ, predict_image_result [] sthr = none) :=
  ⟨fun thr => nms_nil thr, fun _ => rfl⟩

/-- A dataframe cell: numeric or text. -/
inductive Cell where
  | num (q : ℚ)
  | txt (s : String)
deriving DecidableEq

/-- Modelled from the spec, section 6, and pinned by the column-set
assertions of test_predict_image_fromfile and test_predict_image_fromarray
in src/tests/test_main.py: one row of the dataframe produced by
predict.predict_image (whose module is not among the given sources).
Its score column is named scores. -/
def predictImageRow (d : Det) : List (String × Cell) :=
  [("xmin", Cell.num d.box.xmin), ("ymin", Cell.num d.box.ymin),
   ("xmax", Cell.num d.box.xmax), ("ymax", Cell.num d.box.ymax),
   ("label", Cell.num d.label), ("scores", Cell.num d.score)]

/-- Modelled from the spec, section 6, and pinned by test_predict_file:
predict_file gathers the formatted predictions of every image and adds
the image_path column to each row. -/
def predictFileRow (imagePath : String) (d : Det) : List (String × Cell) :=
  predictImageRow d ++ [("image_path", Cell.txt imagePath)]

/-- Modelled from the spec, section 6, and pinned by test_predict_tile:
one row of the dataframe returned by predict_tile, whose score column
is named score. -/
def predictTileRow (d : Det) : List (String × Cell) :=
  [("xmin", Cell.num d.box.xmin), ("ymin", Cell.num d.box.ymin),
   ("xmax", Cell.num d.box.xmax), ("ymax", Cell.num d.box.ymax),
   ("label", Cell.num d.label), ("score", Cell.num d.score)]

/-- The predict_tile output table: one row per detection surviving
suppression. -/
def predictTileTable (dets : List Det) (thr : ℚ) :
    List (List (String × Cell)) :=
  (nms thr dets).map predictTileRow

/-- C5 counterexample: the predict_image dataframe has no column named
score; its score column is named scores, as the repository test
test_predict_image_fromfile asserts. -/
theorem predict_image_no_score_column :
    "score" ∉ (predictImageRow ⟨⟨0, 0, 0, 0⟩, 0, 0⟩).map Prod.fst := by
  decide

/-- C5 amended: predict_tile returns the columns xmin, ymin, xmax,
ymax, label, score; predict_image and predict_file name the score
column scores instead, with predict_file appending image_path; the
tiled table has one row per surviving detection. -/
theorem prediction_columns (d : Det) (p : String) (dets : List Det)
    (thr : ℚ) :
    (predictTileRow d).map Prod.fst =
      ["xmin", "ymin", "xmax", "ymax", "label", "score"] ∧
    (predictImageRow d).map Prod.fst =
      ["xmin", "ymin", "xmax", "ymax", "label", "scores"] ∧
    (predictFileRow p d).map Prod.fst =
      ["xmin", "ymin", "xmax", "ymax", "label", "scores", "image_path"] ∧
    (predictTileTable dets thr).length = (nms thr dets).length := by
  refine ⟨rfl, rfl, rfl, ?_⟩
  simp [predictTileTable]

/-- Embedded from src/deepforest/main.py, deepforest.test_epoch_end
(lines 284 to 311): gather the predictions of every batch into one table,
then attempt to push precision and recall to the external experiment
tracker inside a try/except block — a failing sink call only produces
the printed message and the gathered results are returned in any
case.  The sink is the pair of logger.experiment.log_metric calls;
the first failure aborts the second call, as in the Python block. -/
def test_epoch_end (outputs : List (List Det)) (prec recl : ℚ)
    (sink : String × ℚ → Except String Unit) : List Det × List String :=
  let gathered := outputs.flatten
  let printed :=
    match sink ("test_precision", prec) with
    | Except.error e => ["test epoch could not find logger " ++ e]
    | Except.ok _ =>
      match sink ("test_recall", recl) with
      | Except.error e => ["test epoch could not find logger " ++ e]
      | Except.ok _ => []
  (gathered, printed)

/-- C8: a failure of the external metrics sink is caught: whatever the
sink does, test_epoch_end returns the gathered results, and with a sink
that always fails the call still completes, returning the gathered
results together with the printed log message. -/
theorem test_epoch_end_sink_safe (outputs : List (List Det))
    (prec recl : ℚ) (sink : String × ℚ → Except String Unit)
    (e : String) :
    (test_epoch_end outputs prec recl sink).1 = outputs.flatten ∧
    test_epoch_end outputs prec recl (fun _ => Except.error e) =
      (outputs.flatten, ["test epoch could not find logger " ++ e]) :=
  ⟨rfl, rfl⟩

/-- Modelled from the spec, section 4.5: among the still-unmatched
predictions (carried with their original indices), find the one whose
IoU with the ground-truth box is maximal, earliest index on ties. -/
def bestMatch (g : Box) : List (ℕ × Det) → Option (ℕ × Det)
  | [] => none
  | p :: rest =>
    match bestMatch g rest with
    | none => some p
    | some q =>
      if iou p.2.box g < iou q.2.box g then some q else some p

theorem bestMatch_mem (g : Box) : ∀ (l : List (ℕ × Det)) (q : ℕ × Det),
    bestMatch g l = some q → q ∈ l := by
  intro l
  induction l with
  | nil => intro q h; simp [bestMatch] at h
  | cons p rest ih =>
    intro q h
    cases hr : bestMatch g rest with
    | none =>
      simp [bestMatch, hr] at h
      exact h ▸ List.mem_cons_self _ _
    | some q' =>
      simp [bestMatch, hr] at h
      by_cases hlt : iou p.2.box g < iou q'.2.box g
      · rw [if_pos hlt, Option.some.injEq] at h
        exact h ▸ List.mem_cons_of_mem _ (ih q' hr)
      · rw [if_neg hlt, Option.some.injEq] at h
        exact h ▸ List.mem_cons_self _ _

/-- Modelled from the spec, section 4.5: the greedy one-to-one
matching loop of evaluate.evaluate, whose module is not among the
given sources.  Ground-truth boxes are processed in order; each is
matched to the available prediction of maximal IoU, and the match is a
true positive when that IoU reaches iou_threshold and the score of
the prediction reaches score_threshold, in which case the prediction is removed
from the available pool; otherwise the ground-truth box is a false
negative.  Returns (true positives, false negatives, matched
prediction indices). -/
def evalLoop (ithr sthr : ℚ) : List Box → List (ℕ × Det) → ℕ × ℕ × List ℕ
  | [], _ => (0, 0, [])
  | g :: gs, avail =>
    match bestMatch g avail with
    | none =>
      let r := evalLoop ithr sthr gs avail
      (r.1, r.2.1 + 1, r.2.2)
    | some (i, p) =>
      if ithr ≤ iou p.box g ∧ sthr ≤ p.score then
        let r := evalLoop ithr sthr gs
          (avail.filter (fun q => decide (q.1 ≠ i)))
        (r.1 + 1, r.2.1, i :: r.2.2)
      else
        let r := evalLoop ithr sthr gs avail
        (r.1, r.2.1 + 1, r.2.2)

/-- True positives of an evaluation run. -/
def truePositives (preds : List Det) (gts : List Box)
    (ithr sthr : ℚ) : ℕ :=
  (evalLoop ithr sthr gts preds.enum).1

/-- False negatives: ground-truth boxes left unmatched. -/
def falseNegatives (preds : List Det) (gts : List Box)
    (ithr sthr : ℚ) : ℕ :=
  (evalLoop ithr sthr gts preds.enum).2.1

/-- Indices of the predictions consumed by the greedy matching. -/
def matchedIdx (preds : List Det) (gts : List Box)
    (ithr sthr : ℚ) : List ℕ :=
  (evalLoop ithr sthr gts preds.enum).2.2

/-- False positives: unmatched predictions whose score reaches
score_threshold. -/
def falsePositives (preds : List Det) (gts : List Box)
    (ithr sthr : ℚ) : ℕ :=
  (preds.enum.filter (fun ip =>
    decide (ip.1 ∉ matchedIdx preds gts ithr sthr) &&
      decide (sthr ≤ ip.2.score))).length

/-- Modelled from the spec, section 4.5: evaluate returns the pair
(precision, recall) with precision TP/(TP+FP) and recall TP/(TP+FN);
a zero denominator yields 0 by the rational-division convention. -/
def evaluate (preds : List Det) (gts : List Box) (ithr sthr : ℚ) :
    ℚ × ℚ :=
  ((truePositives preds gts ithr sthr : ℚ) /
      ((truePositives preds gts ithr sthr : ℚ) +
        (falsePositives preds gts ithr sthr : ℚ)),
   (truePositives preds gts ithr sthr : ℚ) /
      ((truePositives preds gts ithr sthr : ℚ) +
        (falseNegatives preds gts ithr sthr : ℚ)))

theorem evalLoop_matched_nodup (ithr sthr : ℚ) :
    ∀ (gts : List Box) (avail : List (ℕ × Det)),
      (avail.map Prod.fst).Nodup →
      (evalLoop ithr sthr gts avail).2.2.Nodup ∧
        ∀ j ∈ (evalLoop ithr sthr gts avail).2.2, j ∈ avail.map Prod.fst := by
  intro gts
  induction gts with
  | nil =>
    intro avail hav
    exact ⟨List.nodup_nil, by simp [evalLoop]⟩
  | cons g gs ih =>
    intro avail hav
    cases hb : bestMatch g avail with
    | none =>
      simpa [evalLoop, hb] using ih avail hav
    | some q =>
      obtain ⟨i, p⟩ := q
      by_cases hc : ithr ≤ iou p.box g ∧ sthr ≤ p.score
      · have hsub : (avail.filter (fun q => decide (q.1 ≠ i))).Sublist avail :=
          List.filter_sublist _
        have hkeys : ((avail.filter (fun q => decide (q.1 ≠ i))).map
            Prod.fst).Nodup := (hsub.map Prod.fst).nodup hav
        obtain ⟨ihn, ihs⟩ := ih _ hkeys
        have hnoti : i ∉ (evalLoop ithr sthr gs
            (avail.filter (fun q => decide (q.1 ≠ i)))).2.2 := by
          intro hmem
          obtain ⟨q', hq', hq'i⟩ := List.mem_map.mp (ihs i hmem)
          have := (List.mem_filter.mp hq').2
          rw [decide_eq_true_eq] at this
          exact this hq'i
        constructor
        · simp only [evalLoop, hb, if_pos hc]
          exact List.Nodup.cons hnoti ihn
        · intro j hj
          simp only [evalLoop, hb, if_pos hc] at hj
          rcases List.mem_cons.mp hj with hj | hj
          · subst hj
            exact List.mem_map.mpr ⟨(j, p), bestMatch_mem g avail (j, p) hb, rfl⟩
          · obtain ⟨q', hq', hq'j⟩ := List.mem_map.mp (ihs j hj)
            exact List.mem_map.mpr ⟨q', (List.mem_filter.mp hq').1, hq'j⟩
      · have heq : (evalLoop ithr sthr (g :: gs) avail).2.2 =
            (evalLoop ithr sthr gs avail).2.2 := by
          simp only [evalLoop, hb, if_neg hc]
        rw [heq]
        exact ih avail hav

/-- C7: the evaluator matches greedily one-to-one — the matched
prediction indices never repeat, so a prediction matched to one
ground-truth box cannot match another — and returns the pair
(precision, recall) with precision TP/(TP+FP) and recall TP/(TP+FN);
on the spec scenario of ground truth (10,10,50,50) against prediction
(12,12,48,48) with score 0.6 at iou_threshold 0.5 and score_threshold
0.5 it reports one true positive, no false positives and no false
negatives, precision 1 and recall 1. -/
theorem evaluate_spec :
    (∀ (preds : List Det) (gts : List Box) (ithr sthr : ℚ),
      (matchedIdx preds gts ithr sthr).Nodup ∧
      evaluate preds gts ithr sthr =
        ((truePositives preds gts ithr sthr : ℚ) /
            ((truePositives preds gts ithr sthr : ℚ) +
              (falsePositives preds gts ithr sthr : ℚ)),
         (truePositives preds gts ithr sthr : ℚ) /
            ((truePositives preds gts ithr sthr : ℚ) +
              (falseNegatives preds gts ithr sthr : ℚ)))) ∧
    truePositives [⟨⟨12, 12, 48, 48⟩, 3 / 5, 0⟩] [⟨10, 10, 50, 50⟩]
        (1 / 2) (1 / 2) = 1 ∧
    falsePositives [⟨⟨12, 12, 48, 48⟩, 3 / 5, 0⟩] [⟨10, 10, 50, 50⟩]
        (1 / 2) (1 / 2) = 0 ∧
    falseNegatives [⟨⟨12, 12, 48, 48⟩, 3 / 5, 0⟩] [⟨10, 10, 50, 50⟩]
        (1 / 2) (1 / 2) = 0 ∧
    evaluate [⟨⟨12, 12, 48, 48⟩, 3 / 5, 0⟩] [⟨10, 10, 50, 50⟩]
        (1 / 2) (1 / 2) = (1, 1) := by
  have hiou : iou ⟨12, 12, 48, 48⟩ ⟨10, 10, 50, 50⟩ = 81 / 100 := by
    norm_num [iou, unionArea, interArea, Box.area, min_def, max_def]
  have hcond : (1 : ℚ) / 2 ≤ iou ⟨12, 12, 48, 48⟩ ⟨10, 10, 50, 50⟩ ∧
      (1 : ℚ) / 2 ≤ 3 / 5 := by
    constructor
    · rw [hiou]; norm_num
    · norm_num
  have henum : ([⟨⟨12, 12, 48, 48⟩, 3 / 5, 0⟩] : List Det).enum =
      [(0, ⟨⟨12, 12, 48, 48⟩, 3 / 5, 0⟩)] := rfl
  have hloop : evalLoop (1 / 2) (1 / 2) [⟨10, 10, 50, 50⟩]
      [(0, ⟨⟨12, 12, 48, 48⟩, 3 / 5, 0⟩)] = (1, 0, [0]) := by
    simp only [evalLoop, bestMatch]
    rw [if_pos hcond]
  refine ⟨?_, ?_, ?_, ?_, ?_⟩
  · intro preds gts ithr sthr
    constructor
    · exact (evalLoop_matched_nodup ithr sthr gts preds.enum
        (List.nodup_enum_map_fst preds)).1
    · rfl
  · unfold truePositives
    rw [henum, hloop]
  · unfold falsePositives
    unfold matchedIdx
    rw [henum, hloop]
    simp
  · unfold falseNegatives
    rw [henum, hloop]
  · unfold evaluate
    unfold truePositives falsePositives falseNegatives matchedIdx
    rw [henum, hloop]
    norm_num

/-- The image argument of deepforest.predict_image: absent (None), a
string, or a numpy image array. -/
inductive ImageInput where
  | noimage
  | imgstr (s : String)
  | imgarr (w h : ℕ)
deriving DecidableEq

/-- The path argument of deepforest.predict_image: absent (None,
the default), a string, or another Python value such as an integer. -/
inductive PathInput where
  | nopath
  | pathstr (s : String)
  | pathint (n : ℤ)
deriving DecidableEq

/-- Python truthiness of the path argument, as tested by the line
if path: in predict_image — None, the integer 0 and the empty string
are falsy. -/
def PathInput.truthy : PathInput → Bool
  | PathInput.nopath => false
  | PathInput.pathstr s => !s.isEmpty
  | PathInput.pathint n => decide (n ≠ 0)

/-- isinstance(path, str). -/
def PathInput.isStr : PathInput → Bool
  | PathInput.pathstr _ => true
  | _ => false

/-- isinstance(image, str). -/
def ImageInput.isStr : ImageInput → Bool
  | ImageInput.imgstr _ => true
  | _ => false

/-- Embedded from src/deepforest/main.py line 153: the condition
if torch.cuda.is_available: evaluates the truthiness of the attribute
torch.cuda.is_available itself — a function object, because the
parentheses that would call it are missing — and a function object is
always truthy in Python, whatever the actual CUDA availability passed
here as the argument. -/
def cuda_is_available_ref_truthy (cudaAvailable : Bool) : Bool := true

/-- The externally visible actions of one predict_image call. -/
inductive PredStep where
  | readImage
  | toDevice
  | evalMode
  | inferCall
deriving DecidableEq

/-- Embedded from src/deepforest/main.py lines 144 to 161
(deepforest.predict_image): raise ValueError when image is a string;
when path is truthy, raise ValueError unless path is a string and
otherwise read the image from disk; move the model to self.device when
the cuda condition holds; switch the model to eval mode; call
predict.predict_image.  The result is the ValueError message or the
ordered sequence of actions performed. -/
def predict_image_steps (image : ImageInput) (path : PathInput)
    (cudaAvailable : Bool) : Except String (List PredStep) :=
  if image.isStr then
    Except.error ("Path provided instead of image. If you want to " ++
      "predict an image from disk, is path =")
  else if path.truthy && !path.isStr then
    Except.error "Path expects a string path to image on disk"
  else
    Except.ok ((if path.truthy then [PredStep.readImage] else []) ++
      (if cuda_is_available_ref_truthy cudaAvailable
        then [PredStep.toDevice] else []) ++
      [PredStep.evalMode, PredStep.inferCall])

/-- C9 counterexample: calling predict_image with path = 0 — provided
and not a string — raises no ValueError at all: the type check is
guarded by if path: and the integer 0 is falsy, so the call proceeds
to inference. -/
theorem predict_image_path_zero_no_error :
    predict_image_steps ImageInput.noimage (PathInput.pathint 0) true =
      Except.ok [PredStep.toDevice, PredStep.evalMode, PredStep.inferCall] := rfl

/-- C9 amended: a string image argument always raises ValueError, and
a path argument that is provided, truthy and not a string raises
ValueError before any action runs; a falsy non-string path such as 0
or None skips the check entirely. -/
theorem predict_image_validation (s : String) (image : ImageInput)
    (path : PathInput) (c : Bool) :
    predict_image_steps (ImageInput.imgstr s) path c =
      Except.error ("Path provided instead of image. If you want to " ++
        "predict an image from disk, is path =") ∧
    (image.isStr = false → path.truthy = true → path.isStr = false →
      predict_image_steps image path c =
        Except.error "Path expects a string path to image on disk") := by
  constructor
  · rfl
  · intro h1 h2 h3
    unfold predict_image_steps
    simp [h1, h2, h3]

/-- Witness for predict_image_validation at image = None,
path = the integer 5. -/
theorem predict_image_validation_witness :
    predict_image_steps (ImageInput.imgstr "x.png") (PathInput.pathint 5)
        true =
      Except.error ("Path provided instead of image. If you want to " ++
        "predict an image from disk, is path =") ∧
    (ImageInput.noimage.isStr = false ∧
      (PathInput.pathint 5).truthy = true ∧
      (PathInput.pathint 5).isStr = false ∧
      predict_image_steps ImageInput.noimage (PathInput.pathint 5) true =
        Except.error "Path expects a string path to image on disk") :=
  ⟨(predict_image_validation "x.png" ImageInput.noimage
      (PathInput.pathint 5) true).1,
   rfl, by decide, rfl,
   (predict_image_validation "x.png" ImageInput.noimage
      (PathInput.pathint 5) true).2 rfl (by decide) rfl⟩

/-- C10: the cuda condition of predict_image is always true — it tests
the function object torch.cuda.is_available, not its result — so on
every call that passes argument validation the model is moved to
self.device and switched to eval mode, in that order, before the
inference call, regardless of actual CUDA availability, and the whole
call behaves identically whether CUDA is available or not. -/
theorem predict_image_always_to_device (image : ImageInput)
    (path : PathInput) (c c' : Bool) (acts : List PredStep)
    (h : predict_image_steps image path c = Except.ok acts) :
    (∀ b, cuda_is_available_ref_truthy b = true) ∧
    (∃ pre, acts =
      pre ++ [PredStep.toDevice, PredStep.evalMode, PredStep.inferCall]) ∧
    predict_image_steps image path c = predict_image_steps image path c' := by
  refine ⟨fun _ => rfl, ?_, rfl⟩
  unfold predict_image_steps at h
  split at h
  · cases h
  · split at h
    · cases h
    · rw [Except.ok.injEq] at h
      refine ⟨if path.truthy then [PredStep.readImage] else [], ?_⟩
      rw [← h]
      simp [cuda_is_available_ref_truthy]

/-- Witness for predict_image_always_to_device: a plain numpy image
with no path, comparing a CUDA-available call against a CUDA-less
one. -/
theorem predict_image_always_to_device_witness :
    predict_image_steps (ImageInput.imgarr 400 400) PathInput.nopath true =
      Except.ok [PredStep.toDevice, PredStep.evalMode, PredStep.inferCall] ∧
    ((∀ b, cuda_is_available_ref_truthy b = true) ∧
      (∃ pre, [PredStep.toDevice, PredStep.evalMode, PredStep.inferCall] =
        pre ++ [PredStep.toDevice, PredStep.evalMode, PredStep.inferCall]) ∧
      predict_image_steps (ImageInput.imgarr 400 400) PathInput.nopath true =
        predict_image_steps (ImageInput.imgarr 400 400) PathInput.nopath
          false) :=
  ⟨rfl, predict_image_always_to_device (ImageInput.imgarr 400 400)
    PathInput.nopath true false
    [PredStep.toDevice, PredStep.evalMode, PredStep.inferCall] rfl⟩
